import Mathlib

/-!
Verification of the jsonproxy core: a shallow embedding of the token codec
(`auth.go`: `Auth.Generate` / `Auth.Open`), the authorization and response
filtering engine (`proxy.go`: `Proxy.ServeHTTP`, `filterBytes`, `filterJSON`,
`checkFilter`), together with models of the Go standard-library helpers the
code calls (`path.Match`, `path.Join`/`path.Clean`, `bytes.Split`,
`binary.Write`/`binary.Read` on big-endian uint32).

Modelling conventions:
- Go byte strings are `List Nat`; Go `string` is Lean `String`, converted to
  bytes by mapping each character to its code point (faithful for NUL-freeness
  and for round-trips, which is all the serialized format depends on).
- The AES-GCM AEAD from `crypto/cipher` is abstracted as an `AEAD` structure
  (nonce size, seal, open); theorems assume the standard AEAD round-trip law.
- `crypto/rand` nonce draws are abstracted as a stream `Nat → List Nat`
  giving the nonce produced by the i-th draw.
- Go maps iterated with `range` are association lists; the registry map is a
  lookup function `String → Option Role`.
- Fallible Go code returns `Option`/`Except`; `panic` sites in `ServeHTTP`
  are an explicit `ServeResult.panicked` outcome.
-/

/-! ## Byte-string utilities (models of Go stdlib helpers) -/

/-- Bytes of a Go string: one entry per character code point. -/
def strBytes (s : String) : List Nat := s.data.map Char.toNat

/-- Inverse of `strBytes`: Go `string(b)` applied to a byte list. -/
def bytesToStr (l : List Nat) : String := String.mk (l.map Char.ofNat)

/-- Model of Go `bytes.Split(s, [sep])`: the subslices between consecutive
occurrences of the one-byte separator.  Always returns at least one part;
`splitSep sep [] = [[]]`. -/
def splitSep {α : Type} [DecidableEq α] (sep : α) : List α → List (List α)
  | [] => [[]]
  | a :: rest =>
    if a = sep then [] :: splitSep sep rest
    else
      match splitSep sep rest with
      | [] => [[a]]
      | p :: ps => (a :: p) :: ps

/-- Model of Go `binary.Write(buf, binary.BigEndian, uint32(n))`: the four
big-endian bytes of `n` (mod 2^32). -/
def u32be (n : Nat) : List Nat :=
  [n / 16777216 % 256, n / 65536 % 256, n / 256 % 256, n % 256]

/-! ## Token codec (`Auth.Generate` / `Auth.Open`) -/

/-- Model of a Go `time.Time`: unix seconds plus sub-second nanoseconds. -/
structure GoTime where
  sec : Int
  nsec : Int
deriving DecidableEq, Repr

/-- Unix seconds of Go's zero `time.Time` (January 1, year 1 UTC). -/
def goZeroTimeSec : Int := -62135596800

/-- Model of Go `time.Time.IsZero`. -/
def GoTime.isZero (t : GoTime) : Bool :=
  t.sec == goZeroTimeSec && t.nsec == 0

/-- Truncation of a timestamp to second precision. -/
def GoTime.truncSec (t : GoTime) : GoTime := ⟨t.sec, 0⟩

/-- The `Key` struct of `auth.go`: a set of roles bound to an upstream API
key, stamped with a creation time. -/
structure Key where
  createdAt : GoTime
  roles : List String
  apiKey : String
deriving DecidableEq, Repr

/-- Abstraction of the AES-GCM AEAD obtained from `cipher.NewGCM(a.block)`:
a nonce size, a sealing function and an opening function over byte lists. -/
structure AEAD where
  nonceSize : Nat
  sealC : List Nat → List Nat → List Nat
  openCipher : List Nat → List Nat → Option (List Nat)

/-- An AEAD is correct when opening inverts sealing via sealC and sealed output is
never empty (AES-GCM appends a 16-byte tag, so its output never is). -/
def AEAD.Correct (aead : AEAD) : Prop :=
  (∀ n p, aead.openCipher n (aead.sealC n p) = some p) ∧
  (∀ n p, 0 < (aead.sealC n p).length)

/-- The effective key serialized by `Auth.Generate`: the code substitutes
`time.Now()` for a zero `CreatedAt` before serializing. -/
def effectiveKey (now : GoTime) (key : Key) : Key :=
  if key.createdAt.isZero then { key with createdAt := now } else key

/-- The plaintext built by `Auth.Generate`: 4-byte big-endian unix timestamp,
then each role followed by a NUL byte, then the API key (no trailing NUL). -/
def serializeKey (k : Key) : List Nat :=
  u32be ((k.createdAt.sec % 4294967296).toNat)
    ++ k.roles.flatMap (fun r => strBytes r ++ [0])
    ++ strBytes k.apiKey

/-- The ciphertext produced on the i-th attempt of `Auth.Generate`'s loop:
`aead.Seal(nonce, nonce, plaintext, nil)` appends the sealed bytes to the
nonce. -/
def genAttempt (aead : AEAD) (nonces : Nat → List Nat) (plain : List Nat)
    (i : Nat) : List Nat :=
  nonces i ++ aead.sealC (nonces i) plain

/-- The retry loop of `Auth.Generate`: up to `fuel` attempts starting at
attempt index `i`, returning the first ciphertext free of the colon byte
0x3A, or `none` (the `GenerationError`) when the budget is exhausted. -/
def genLoop (aead : AEAD) (nonces : Nat → List Nat) (plain : List Nat) :
    Nat → Nat → Option (List Nat)
  | _, 0 => none
  | i, fuel + 1 =>
    let ct := genAttempt aead nonces plain i
    if ct.contains 58 then genLoop aead nonces plain (i + 1) fuel else some ct

/-- Model of `Auth.Generate`: serialize the (effective) key and seal it with
a fresh nonce, retrying up to 100 times to avoid the colon byte. -/
def Auth.Generate (aead : AEAD) (nonces : Nat → List Nat) (now : GoTime)
    (key : Key) : Option (List Nat) :=
  genLoop aead nonces (serializeKey (effectiveKey now key)) 0 100

/-- Deserialization half of `Auth.Open`: read the 4-byte big-endian
timestamp (failing like `binary.Read` when fewer than 4 bytes remain), split
the rest on NUL bytes; all parts but the last are roles, the last part is
the API key. -/
def deserializeKey (data : List Nat) : Option Key :=
  match data with
  | b0 :: b1 :: b2 :: b3 :: rest =>
    let ut := ((b0 * 256 + b1) * 256 + b2) * 256 + b3
    let parts := splitSep 0 rest
    some { createdAt := ⟨(ut : Int), 0⟩,
           roles := parts.dropLast.map bytesToStr,
           apiKey := bytesToStr (parts.getLastD []) }
  | _ => none

/-- Model of `Auth.Open`: reject tokens no longer than the nonce, split
nonce from ciphertext, authenticate-and-decrypt, then deserialize. -/
def Auth.Open (aead : AEAD) (ciphertext : List Nat) : Option Key :=
  if ciphertext.length ≤ aead.nonceSize then none
  else
    match aead.openCipher (ciphertext.take aead.nonceSize)
        (ciphertext.drop aead.nonceSize) with
    | none => none
    | some data => deserializeKey data

/-! ## Glob matching (model of Go `path.Match`) -/

/-- Backtracking loop for a `*` wildcard: try the rest of the pattern at
every suffix of the name reachable without crossing a `/`. -/
def matchGlobStar (f : List Char → Bool) : List Char → Bool
  | [] => f []
  | n :: ns => f (n :: ns) || (decide (n ≠ '/') && matchGlobStar f ns)

/-- Model of Go `path.Match` for patterns built from literals, `?` and `*`
(the forms used by this program): `*` matches any run of non-`/` characters,
`?` matches one non-`/` character, and the whole name must be consumed. -/
def matchGlob : List Char → List Char → Bool
  | [], [] => true
  | [], _ :: _ => false
  | '*' :: ps, ns => matchGlobStar (matchGlob ps) ns
  | '?' :: ps, n :: ns => decide (n ≠ '/') && matchGlob ps ns
  | _ :: _, [] => false
  | c :: ps, n :: ns => decide (c = n) && matchGlob ps ns

/-- String-level wrapper for `matchGlob`. -/
def pathMatch (pat name : String) : Bool := matchGlob pat.data name.data

/-! ## Path joining (model of Go `path.Join`, which applies `path.Clean`) -/

/-- Join segments with `/` separators (model of `strings.Join` on `/`). -/
def joinChars : List (List Char) → List Char
  | [] => []
  | [x] => x
  | x :: y :: rest => x ++ '/' :: joinChars (y :: rest)

/-- One step of `path.Clean`'s lexical processing: drop `.` segments,
resolve `..` against the segment stack, append ordinary segments. -/
def cleanStep (rooted : Bool) (acc : List (List Char)) (s : List Char) :
    List (List Char) :=
  if s = ['.'] then acc
  else if s = ['.', '.'] then
    match acc.getLast? with
    | some t =>
      if t = ['.', '.'] then (if rooted then acc else acc ++ [['.', '.']])
      else acc.dropLast
    | none => if rooted then acc else acc ++ [['.', '.']]
  else acc ++ [s]

/-- Model of Go `path.Clean` on character lists: collapse repeated slashes,
eliminate `.` and resolvable `..` segments. -/
def pathCleanChars (p : List Char) : List Char :=
  if p = [] then ['.']
  else
    let rooted := p.head? = some '/'
    let segs := (splitSep '/' p).filter (fun s => ¬s.isEmpty)
    let out := segs.foldl (cleanStep rooted) []
    if rooted then '/' :: joinChars out
    else if out = [] then ['.']
    else joinChars out

/-- Model of Go `path.Clean` on strings. -/
def pathClean (p : String) : String := String.mk (pathCleanChars p.data)

/-- Model of Go `path.Join`: skip leading empty elements, join the rest
(including any later empty elements) with `/`, and clean the result; the
all-empty case yields the empty string. -/
def pathJoin : List String → String
  | [] => ""
  | e :: es =>
    if e = "" then pathJoin es
    else pathClean (String.mk (joinChars ((e :: es).map String.data)))

/-! ## Roles, rules and the JSON response filter (`proxy.go`) -/

/-- The `Rule` struct of `jsonproxy.go`: allowed HTTP methods (or the
wildcard `*`) and the whitelist of response key-path patterns. -/
structure Rule where
  methods : List String
  responseKeys : List String
deriving DecidableEq, Repr

/-- A `Role` maps path patterns to rules; the Go `map[string]Rule` iterated
with `range` is modelled as an association list. -/
abbrev Role : Type := List (String × Rule)

/-- A parsed JSON value as produced by `json.Unmarshal` into `interface`:
null, booleans, numbers, strings, arrays and string-keyed objects (the Go
map is modelled as an association list). -/
inductive JSON where
  | null
  | bool (b : Bool)
  | num (n : Int)
  | str (s : String)
  | arr (elems : List JSON)
  | obj (mems : List (String × JSON))

/-- Model of `checkFilter`: join the accumulated keys with `path.Join` and
test the result against every `responseKeys` pattern of every rule.  The
`path.Match` error branch cannot fire for the well-formed patterns modelled
by `matchGlob`, so the model is total. -/
def checkFilter (rules : List Rule) (keys : List String) : Bool :=
  let keyPath := pathJoin keys
  rules.any fun rule => rule.responseKeys.any fun pat => pathMatch pat keyPath

mutual
/-- Model of `filterJSON` (with its two list-walking loops as the mutual
helpers `filterList` and `filterMembers`).  Non-empty arrays keep the
surviving elements under the unchanged key list; non-empty objects keep
surviving members under `keys ++ [k]`; both report survival of at least one
child.  Everything else — scalars, null, empty arrays, empty objects —
falls through to the leaf test `checkFilter`.  The error result of the Go
function (impossible for well-formed patterns) is omitted. -/
def filterJSON (rules : List Rule) : JSON → List String → JSON × Bool
  | JSON.arr [], keys => (JSON.arr [], checkFilter rules keys)
  | JSON.arr (v :: vt), keys =>
    let vf := filterList rules (v :: vt) keys
    (JSON.arr vf, !vf.isEmpty)
  | JSON.obj [], keys => (JSON.obj [], checkFilter rules keys)
  | JSON.obj (m :: ms), keys =>
    let vf := filterMembers rules (m :: ms) keys
    (JSON.obj vf, !vf.isEmpty)
  | v, keys => (v, checkFilter rules keys)

/-- The array-element loop of `filterJSON`: elements are filtered under the
parent's key list unchanged. -/
def filterList (rules : List Rule) : List JSON → List String → List JSON
  | [], _ => []
  | v :: vs, keys =>
    let r := filterJSON rules v keys
    (if r.2 then [r.1] else []) ++ filterList rules vs keys

/-- The object-member loop of `filterJSON`: member `k` is filtered under
`keys ++ [k]`. -/
def filterMembers (rules : List Rule) :
    List (String × JSON) → List String → List (String × JSON)
  | [], _ => []
  | (k, v) :: vs, keys =>
    let r := filterJSON rules v (keys ++ [k])
    (if r.2 then [(k, r.1)] else []) ++ filterMembers rules vs keys
end

/-- Model of `filterBytes`: parse the body, filter it from an empty key
list, and re-serialize.  The JSON codec of `encoding/json` is abstracted as
the `parse` and `marshal` parameters; a `none` parse is the `Unmarshal`
error. -/
def filterBytes (parse : List Nat → Option JSON) (marshal : JSON → List Nat)
    (rules : List Rule) (input : List Nat) : Option (List Nat) :=
  match parse input with
  | none => none
  | some v => some (marshal (filterJSON rules v []).1)

/-! ## Authorization and the request pipeline (`Proxy.ServeHTTP`) -/

/-- Whether one `(pattern, rule)` entry of a role matches the request: the
pattern must match the URL path and some listed method must be `*` or the
request method. -/
def ruleMatches (path method : String) (pr : String × Rule) : Bool :=
  pathMatch pr.1 path && pr.2.methods.any fun mm => mm == "*" || mm == method

/-- The rules of one role that match the request, in table order (the loop
body of `ServeHTTP` for one role). -/
def matchRulesForRole (rr : Role) (path method : String) : List Rule :=
  rr.filterMap fun pr => if ruleMatches path method pr then some pr.2 else none

/-- The role-resolution loop of `ServeHTTP`: walk the capability's roles in
order, failing with the first name absent from the registry, otherwise
accumulating every matching rule into `matches`. -/
def collectRules (reg : String → Option Role) (path method : String) :
    List String → List Rule → Except String (List Rule)
  | [], acc => Except.ok acc
  | r :: rs, acc =>
    match reg r with
    | none => Except.error r
    | some rr => collectRules reg path method rs (acc ++ matchRulesForRole rr path method)

/-- Outcome of one `ServeHTTP` call: an error response written with
`respond` (always status 401 in this handler), a proxied upstream response,
or a `panic`. -/
inductive ServeResult where
  | errorResp (code msg : String)
  | proxied (status : Nat) (body : List Nat)
  | panicked
deriving DecidableEq, Repr

/-- The `Proxy` struct, restricted to the fields the request pipeline
reads: the key opener and the role registry. -/
structure Proxy where
  keyOpener : List Nat → Option Key
  roles : String → Option Role

/-- Model of `Proxy.ServeHTTP`.  `basicUser` is the username of the
Basic-Auth header (`none` when the header fails to parse); `upstream` is the
result of `p.request` (transport error or status plus body); `parse` and
`marshal` abstract the JSON codec used by `filterBytes`.  Error responses
carry the code and message passed to `respond`; upstream failure and
`filterBytes` failure are the two `panic(err)` sites. -/
def Proxy.serveHTTP (p : Proxy) (upstream : Except Unit (Nat × List Nat))
    (parse : List Nat → Option JSON) (marshal : JSON → List Nat)
    (basicUser : Option String) (path method : String) : ServeResult :=
  match basicUser with
  | none => ServeResult.errorResp "unauthorized" "Unable to parse Authorization header"
  | some user =>
    match p.keyOpener (strBytes user) with
    | none => ServeResult.errorResp "unauthorized" "Invalid password provided"
    | some key =>
      match collectRules p.roles path method key.roles [] with
      | Except.error r =>
        ServeResult.errorResp "unauthorized" ("Role " ++ r ++ " does not exist")
      | Except.ok ms =>
        if ms.isEmpty then
          ServeResult.errorResp "unauthorized" "You do not have permission to access this resource"
        else
          match upstream with
          | Except.error _ => ServeResult.panicked
          | Except.ok (status, body) =>
            if status < 300 then
              match filterBytes parse marshal ms body with
              | none => ServeResult.panicked
              | some out => ServeResult.proxied status out
            else ServeResult.proxied status body

/-- Modelled from the spec: the recovery middleware installed by `build`
(`service.New(mux, recovery.LogOnPanic)`, an external package not part of
the sources) catches any panic escaping a handler at the outermost
request boundary and converts it into a 500 server-error response for that
one request, while error and proxied responses pass through with their own
status (every `respond` in `ServeHTTP` uses 401). -/
def recoverWrap : ServeResult → Nat
  | ServeResult.panicked => 500
  | ServeResult.errorResp _ _ => 401
  | ServeResult.proxied status _ => status

/-! ## Supporting lemmas -/

theorem bytesToStr_strBytes (s : String) : bytesToStr (strBytes s) = s := by
  rcases s with ⟨l⟩
  simp [bytesToStr, strBytes, List.map_map, Function.comp_def, Char.ofNat_toNat]

theorem splitSep_sepFree {α : Type} [DecidableEq α] (sep : α) (xs : List α)
    (h : ∀ a ∈ xs, a ≠ sep) : splitSep sep xs = [xs] := by
  induction xs with
  | nil => rfl
  | cons a rest ih =>
    rw [splitSep, if_neg (h a (List.mem_cons_self a rest)),
      ih (fun b hb => h b (List.mem_cons_of_mem a hb))]

theorem splitSep_append {α : Type} [DecidableEq α] (sep : α) (xs ys : List α)
    (h : ∀ a ∈ xs, a ≠ sep) :
    splitSep sep (xs ++ sep :: ys) = xs :: splitSep sep ys := by
  induction xs with
  | nil => simp [splitSep]
  | cons a rest ih =>
    rw [List.cons_append, splitSep, if_neg (h a (List.mem_cons_self a rest)),
      ih (fun b hb => h b (List.mem_cons_of_mem a hb))]

theorem splitSep_serialized (roles : List String) (cred : List Nat)
    (hr : ∀ r ∈ roles, (0 : Nat) ∉ strBytes r) (hc : (0 : Nat) ∉ cred) :
    splitSep 0 (roles.flatMap (fun r => strBytes r ++ [0]) ++ cred)
      = roles.map strBytes ++ [cred] := by
  induction roles with
  | nil =>
    simp only [List.flatMap_nil, List.nil_append, List.map_nil]
    exact splitSep_sepFree 0 cred (fun a ha he => hc (he ▸ ha))
  | cons r rs ih =>
    have hr0 : ∀ a ∈ strBytes r, a ≠ (0 : Nat) :=
      fun a ha he => hr r (List.mem_cons_self r rs) (he ▸ ha)
    have hrest := ih (fun x hx => hr x (List.mem_cons_of_mem r hx))
    have hshape : (r :: rs).flatMap (fun x => strBytes x ++ [0]) ++ cred
        = strBytes r ++ ((0 : Nat) :: (rs.flatMap (fun x => strBytes x ++ [0]) ++ cred)) := by
      simp [List.flatMap_cons, List.append_assoc]
    rw [hshape, splitSep_append 0 (strBytes r) _ hr0, hrest, List.map_cons, List.cons_append]

theorem genLoop_eq_some (aead : AEAD) (nonces : Nat → List Nat) (plain : List Nat) :
    ∀ fuel i t, genLoop aead nonces plain i fuel = some t →
      (∃ j, t = genAttempt aead nonces plain j) ∧ t.contains 58 = false := by
  intro fuel
  induction fuel with
  | zero => intro i t h; simp [genLoop] at h
  | succ f ih =>
    intro i t h
    rw [genLoop] at h
    by_cases hc : (genAttempt aead nonces plain i).contains 58 = true
    · rw [if_pos hc] at h
      exact ih (i + 1) t h
    · rw [if_neg hc] at h
      cases h
      exact ⟨⟨i, rfl⟩, Bool.not_eq_true _ ▸ hc⟩

theorem genLoop_eq_none (aead : AEAD) (nonces : Nat → List Nat) (plain : List Nat) :
    ∀ fuel i,
      (∀ j, i ≤ j → j < i + fuel → (genAttempt aead nonces plain j).contains 58 = true) →
      genLoop aead nonces plain i fuel = none := by
  intro fuel
  induction fuel with
  | zero => intro i _; rfl
  | succ f ih =>
    intro i h
    rw [genLoop, if_pos (h i (Nat.le_refl i) (by omega))]
    exact ih (i + 1) (fun j h1 h2 => h j (by omega) (by omega))

theorem deserialize_serialized (k : Key)
    (hroles : ∀ r ∈ k.roles, (0 : Nat) ∉ strBytes r)
    (hcred : (0 : Nat) ∉ strBytes k.apiKey)
    (hsec0 : 0 ≤ k.createdAt.sec) (hsec1 : k.createdAt.sec < 4294967296) :
    deserializeKey (serializeKey k) = some ⟨k.createdAt.truncSec, k.roles, k.apiKey⟩ := by
  have hsplit := splitSep_serialized k.roles (strBytes k.apiKey) hroles hcred
  set n := (k.createdAt.sec % 4294967296).toNat with hn
  have hnval : (n : Int) = k.createdAt.sec := by
    rw [hn, Int.emod_eq_of_lt hsec0 hsec1, Int.toNat_of_nonneg hsec0]
  have hnlt : n < 4294967296 := by omega
  have hser : serializeKey k
      = n / 16777216 % 256 :: n / 65536 % 256 :: n / 256 % 256 :: n % 256 ::
        (k.roles.flatMap (fun r => strBytes r ++ [0]) ++ strBytes k.apiKey) := by
    simp [serializeKey, u32be, hn]
  rw [hser]
  simp only [deserializeKey, hsplit]
  have hut : ((n / 16777216 % 256 * 256 + n / 65536 % 256) * 256 + n / 256 % 256) * 256 + n % 256
      = n := by omega
  rw [hut]
  simp only [List.dropLast_concat, List.getLastD_concat]
  simp [GoTime.truncSec, hnval, bytesToStr_strBytes, List.map_map, Function.comp_def]

/-! ## C1: token round-trip -/

/-- C1 (amended — see `C1_counterexample`): for a key whose roles are
non-empty and NUL-free, whose credential is NUL-free, and whose CreatedAt
has unix seconds representable in an unsigned 32-bit integer, a successful
`Generate` produces a token that `Open` maps back to the same roles, the
same credential, and the original timestamp truncated to second precision;
with zero roles the NUL-split of the decrypted payload is the single part
holding the credential. -/
theorem C1_token_roundtrip (aead : AEAD) (nonces : Nat → List Nat) (now : GoTime)
    (k : Key) (t : List Nat)
    (hcorrect : aead.Correct)
    (hnonce : ∀ i, (nonces i).length = aead.nonceSize)
    (hroles : ∀ r ∈ k.roles, r ≠ "" ∧ (0 : Nat) ∉ strBytes r)
    (hcred : (0 : Nat) ∉ strBytes k.apiKey)
    (hsec0 : 0 ≤ k.createdAt.sec) (hsec1 : k.createdAt.sec < 4294967296)
    (hgen : Auth.Generate aead nonces now k = some t) :
    Auth.Open aead t = some ⟨k.createdAt.truncSec, k.roles, k.apiKey⟩ ∧
    (k.roles = [] → splitSep 0 ((serializeKey k).drop 4) = [strBytes k.apiKey]) := by
  have hz : k.createdAt.isZero = false := by
    have hne : k.createdAt.sec ≠ goZeroTimeSec := by unfold goZeroTimeSec; omega
    simp [GoTime.isZero, hne]
  have heff : effectiveKey now k = k := by simp [effectiveKey, hz]
  unfold Auth.Generate at hgen
  rw [heff] at hgen
  obtain ⟨⟨j, hj⟩, _⟩ := genLoop_eq_some aead nonces (serializeKey k) 100 0 t hgen
  constructor
  · subst hj
    unfold genAttempt
    have hlen1 : (nonces j).length = aead.nonceSize := hnonce j
    have hlen2 : 0 < (aead.sealC (nonces j) (serializeKey k)).length := hcorrect.2 _ _
    unfold Auth.Open
    rw [if_neg (by rw [List.length_append, hlen1]; omega)]
    rw [show (nonces j ++ aead.sealC (nonces j) (serializeKey k)).take aead.nonceSize
        = nonces j from by rw [← hlen1]; exact List.take_left _ _]
    rw [show (nonces j ++ aead.sealC (nonces j) (serializeKey k)).drop aead.nonceSize
        = aead.sealC (nonces j) (serializeKey k) from by rw [← hlen1]; exact List.drop_left _ _]
    rw [hcorrect.1]
    exact deserialize_serialized k (fun r hr => (hroles r hr).2) hcred hsec0 hsec1
  · intro hempty
    rw [show (serializeKey k).drop 4
        = k.roles.flatMap (fun r => strBytes r ++ [0]) ++ strBytes k.apiKey from by
      simp [serializeKey, u32be]]
    rw [hempty]
    simp only [List.flatMap_nil, List.nil_append]
    exact splitSep_sepFree 0 _ (fun a ha he => hcred (he ▸ ha))

/-- Toy concrete AEAD used for concrete instantiations: one-byte nonce,
sealing appends a 0x01 tag byte, opening strips it. -/
def toyAEAD : AEAD :=
  ⟨1, fun _ p => p ++ [1],
    fun _ c => if c.getLast? = some 1 then some c.dropLast else none⟩

/-- Constant nonce stream for concrete instantiations. -/
def toyNonces : Nat → List Nat := fun _ => [9]

theorem toyAEAD_correct : toyAEAD.Correct := by
  constructor
  · intro n p; simp [toyAEAD]
  · intro n p; simp [toyAEAD]

/-- Key whose CreatedAt unix seconds are 2^32 (February 2106). -/
def overflowKey : Key := ⟨⟨4294967296, 0⟩, [], "b"⟩

/-- C1 counterexample: `overflowKey` satisfies every hypothesis the claim
states (NUL-free roles and credential), `Open (Generate record)` succeeds,
yet the returned CreatedAt is unix second 0, not the original timestamp
truncated to second precision — the 4-byte format truncates mod 2^32. -/
theorem C1_counterexample :
    (∀ r ∈ overflowKey.roles, r ≠ "" ∧ (0 : Nat) ∉ strBytes r) ∧
    (0 : Nat) ∉ strBytes overflowKey.apiKey ∧
    Auth.Generate toyAEAD toyNonces ⟨0, 0⟩ overflowKey = some [9, 0, 0, 0, 0, 98, 1] ∧
    Auth.Open toyAEAD [9, 0, 0, 0, 0, 98, 1] = some ⟨⟨0, 0⟩, [], "b"⟩ ∧
    (⟨⟨0, 0⟩, [], "b"⟩ : Key)
      ≠ ⟨overflowKey.createdAt.truncSec, overflowKey.roles, overflowKey.apiKey⟩ := by
  exact ⟨by decide, by decide, by decide, by decide, by decide⟩

/-- C1 witness: the round-trip theorem applied to two concrete keys (one
role, and zero roles) over the toy AEAD. -/
theorem C1_token_roundtrip_witness :
    Auth.Open toyAEAD [9, 0, 0, 0, 5, 97, 0, 98, 1] = some ⟨⟨5, 0⟩, ["a"], "b"⟩ ∧
    Auth.Open toyAEAD [9, 0, 0, 0, 5, 98, 1] = some ⟨⟨5, 0⟩, [], "b"⟩ ∧
    splitSep 0 ((serializeKey ⟨⟨5, 7⟩, [], "b"⟩).drop 4) = [strBytes "b"] := by
  have h1 := C1_token_roundtrip toyAEAD toyNonces ⟨0, 0⟩ ⟨⟨5, 7⟩, ["a"], "b"⟩
    [9, 0, 0, 0, 5, 97, 0, 98, 1] toyAEAD_correct (fun _ => rfl)
    (by decide) (by decide) (by decide) (by decide) (by decide)
  have h2 := C1_token_roundtrip toyAEAD toyNonces ⟨0, 0⟩ ⟨⟨5, 7⟩, [], "b"⟩
    [9, 0, 0, 0, 5, 98, 1] toyAEAD_correct (fun _ => rfl)
    (by decide) (by decide) (by decide) (by decide) (by decide)
  exact ⟨h1.1, h2.1, h2.2 rfl⟩

/-! ## C8: colon-free token generation -/

/-- C8: `Generate` never returns a token containing the colon byte 0x3A: a
returned token is colon-free, and when every one of the 100 attempted
ciphertexts contains a colon it fails with the generation error. -/
theorem C8_no_colon (aead : AEAD) (nonces : Nat → List Nat) (now : GoTime) (key : Key) :
    (∀ t, Auth.Generate aead nonces now key = some t → t.contains 58 = false) ∧
    ((∀ i, i < 100 →
        (genAttempt aead nonces (serializeKey (effectiveKey now key)) i).contains 58 = true) →
      Auth.Generate aead nonces now key = none) := by
  constructor
  · intro t h
    unfold Auth.Generate at h
    exact (genLoop_eq_some aead nonces _ 100 0 t h).2
  · intro h
    unfold Auth.Generate
    exact genLoop_eq_none aead nonces _ 100 0 (fun j h1 h2 => h j (by omega))

/-- AEAD whose every sealed output is the single colon byte. -/
def colonAEAD : AEAD := ⟨1, fun _ _ => [58], fun _ _ => none⟩

/-- C8 witness: a successful concrete generation is colon-free, and a
concrete AEAD always producing colons exhausts the 100 attempts. -/
theorem C8_no_colon_witness :
    ([9, 0, 0, 0, 5, 97, 0, 98, 1] : List Nat).contains 58 = false ∧
    Auth.Generate colonAEAD toyNonces ⟨0, 0⟩ ⟨⟨5, 7⟩, ["a"], "b"⟩ = none := by
  constructor
  · exact (C8_no_colon toyAEAD toyNonces ⟨0, 0⟩ ⟨⟨5, 7⟩, ["a"], "b"⟩).1 _ (by decide)
  · exact (C8_no_colon colonAEAD toyNonces ⟨0, 0⟩ ⟨⟨5, 7⟩, ["a"], "b"⟩).2 (by decide)

/-! ## C2: fail-closed role resolution -/

theorem collectRules_missing (reg : String → Option Role) (path method : String) :
    ∀ (roles : List String) (acc : List Rule),
      (∃ r ∈ roles, reg r = none) →
      ∃ name, name ∈ roles ∧ reg name = none ∧
        collectRules reg path method roles acc = Except.error name := by
  intro roles
  induction roles with
  | nil =>
    intro acc h
    obtain ⟨r, hm, _⟩ := h
    exact absurd hm (List.not_mem_nil r)
  | cons a rs ih =>
    intro acc h
    cases hra : reg a with
    | none => exact ⟨a, List.mem_cons_self a rs, hra, by rw [collectRules, hra]⟩
    | some rr =>
      obtain ⟨r, hm, hr⟩ := h
      have hrs : ∃ r ∈ rs, reg r = none := by
        rcases List.mem_cons.mp hm with he | ht
        · exact absurd hr (by rw [he, hra]; simp)
        · exact ⟨r, ht, hr⟩
      obtain ⟨name, h1, h2, h3⟩ := ih (acc ++ matchRulesForRole rr path method) hrs
      exact ⟨name, List.mem_cons_of_mem a h1, h2, by rw [collectRules, hra]; exact h3⟩

/-- C2: when any role named in the capability is absent from the registry,
the request is rejected outright with the 401 unauthorized error response,
regardless of what the other (possibly valid and matching) roles would
grant. -/
theorem C2_fail_closed (p : Proxy) (upstream : Except Unit (Nat × List Nat))
    (parse : List Nat → Option JSON) (marshal : JSON → List Nat)
    (user path method : String) (key : Key) (r : String)
    (hopen : p.keyOpener (strBytes user) = some key)
    (hr : r ∈ key.roles) (hmiss : p.roles r = none) :
    ∃ name, name ∈ key.roles ∧ p.roles name = none ∧
      p.serveHTTP upstream parse marshal (some user) path method
        = ServeResult.errorResp "unauthorized" ("Role " ++ name ++ " does not exist") ∧
      recoverWrap (p.serveHTTP upstream parse marshal (some user) path method) = 401 := by
  obtain ⟨name, h1, h2, h3⟩ :=
    collectRules_missing p.roles path method key.roles [] ⟨r, hr, hmiss⟩
  have hserve : p.serveHTTP upstream parse marshal (some user) path method
      = ServeResult.errorResp "unauthorized" ("Role " ++ name ++ " does not exist") := by
    simp [Proxy.serveHTTP, hopen, h3]
  exact ⟨name, h1, h2, hserve, by rw [hserve]; rfl⟩

/-- A rule granting everything, attached to the role "known". -/
def knownRule : Rule := ⟨["*"], ["*"]⟩

/-- Proxy whose keys carry roles known and unknown, with only "known" (and
a rule matching path /x) in the registry. -/
def mixedProxy : Proxy :=
  ⟨fun _ => some ⟨⟨0, 0⟩, ["known", "unknown"], "k"⟩,
   fun r => if r = "known" then some [("/x", knownRule)] else none⟩

/-- C2 witness: the fail-closed theorem applied to a capability holding a
valid role whose rule matches the request alongside an unknown role. -/
theorem C2_fail_closed_witness :
    ruleMatches "/x" "GET" ("/x", knownRule) = true ∧
    ∃ name, name ∈ (⟨⟨0, 0⟩, ["known", "unknown"], "k"⟩ : Key).roles ∧
      mixedProxy.roles name = none ∧
      mixedProxy.serveHTTP (Except.ok (200, [])) (fun _ => some JSON.null) (fun _ => [])
        (some "u") "/x" "GET"
        = ServeResult.errorResp "unauthorized" ("Role " ++ name ++ " does not exist") ∧
      recoverWrap (mixedProxy.serveHTTP (Except.ok (200, [])) (fun _ => some JSON.null)
        (fun _ => []) (some "u") "/x" "GET") = 401 := by
  constructor
  · decide
  · exact C2_fail_closed mixedProxy (Except.ok (200, [])) (fun _ => some JSON.null)
      (fun _ => []) "u" "/x" "GET" ⟨⟨0, 0⟩, ["known", "unknown"], "k"⟩ "unknown"
      rfl (by decide) (by decide)

/-! ## C3: glob-based rule matching -/

theorem mem_matchRulesForRole (rr : Role) (path method : String) (rule : Rule) :
    rule ∈ matchRulesForRole rr path method
      ↔ ∃ pr ∈ rr, ruleMatches path method pr = true ∧ pr.2 = rule := by
  unfold matchRulesForRole
  rw [List.mem_filterMap]
  constructor
  · rintro ⟨pr, hm, hf⟩
    by_cases hc : ruleMatches path method pr = true
    · rw [if_pos hc] at hf
      cases hf
      exact ⟨pr, hm, hc, rfl⟩
    · rw [if_neg hc] at hf
      cases hf
  · rintro ⟨pr, hm, hc, he⟩
    exact ⟨pr, hm, by rw [if_pos hc, he]⟩

theorem collectRules_ok (reg : String → Option Role) (path method : String) :
    ∀ (roles : List String) (acc : List Rule),
      (∀ r ∈ roles, (reg r).isSome = true) →
      ∃ ms, collectRules reg path method roles acc = Except.ok ms ∧
        ∀ rule, rule ∈ ms ↔ (rule ∈ acc ∨ ∃ role ∈ roles, ∃ rr, reg role = some rr ∧
          ∃ pr ∈ rr, ruleMatches path method pr = true ∧ pr.2 = rule) := by
  intro roles
  induction roles with
  | nil =>
    intro acc _
    exact ⟨acc, rfl, fun rule => by simp⟩
  | cons a rs ih =>
    intro acc hall
    cases hra : reg a with
    | none => exact absurd (hall a (List.mem_cons_self a rs)) (by rw [hra]; simp)
    | some rr =>
      obtain ⟨ms, h1, h2⟩ := ih (acc ++ matchRulesForRole rr path method)
        (fun r hr => hall r (List.mem_cons_of_mem a hr))
      refine ⟨ms, by rw [collectRules, hra]; exact h1, fun rule => ?_⟩
      rw [h2 rule, List.mem_append, mem_matchRulesForRole]
      constructor
      · rintro ((hacc | hnew) | ⟨role, hrole, rr', hreg, hex⟩)
        · exact Or.inl hacc
        · exact Or.inr ⟨a, List.mem_cons_self a rs, rr, hra, hnew⟩
        · exact Or.inr ⟨role, List.mem_cons_of_mem a hrole, rr', hreg, hex⟩
      · rintro (hacc | ⟨role, hrole, rr', hreg, hex⟩)
        · exact Or.inl (Or.inl hacc)
        · rcases List.mem_cons.mp hrole with he | ht
          · subst he
            simp only [hra, Option.some.injEq] at hreg
            subst hreg
            exact Or.inl (Or.inr hex)
          · exact Or.inr ⟨role, ht, rr', hreg, hex⟩

/-- The role table of the "candidates" role from the end-to-end scenario:
a 2-segment GET pattern and a 4-segment GET/POST pattern. -/
def candRole : Role :=
  [("/candidates/*", ⟨["GET"], ["id", "jobs", "jobs/*"]⟩),
   ("/candidates/*/*/*", ⟨["GET", "POST"], ["name/first"]⟩)]

/-- Registry holding only the "candidates" role. -/
def testRegistry : String → Option Role :=
  fun r => if r = "candidates" then some candRole else none

/-- Proxy over `testRegistry` whose keys carry the "candidates" role. -/
def testProxy : Proxy :=
  ⟨fun _ => some ⟨⟨0, 0⟩, ["candidates"], "k"⟩, testRegistry⟩

/-- C3: when every carried role exists in the registry, role resolution
succeeds and a rule is matched iff some role's table has an entry whose
pattern glob-matches the request path (single-segment semantics) and whose
method list contains the request method or the wildcard; an empty matched
set is rejected with the 401 forbidden response; in particular
/candidates/* does not match the 3-segment path /candidates/baz/boz, whose
GET is rejected. -/
theorem C3_rule_matching (reg : String → Option Role) (path method : String)
    (roles : List String) (hall : ∀ r ∈ roles, (reg r).isSome = true) :
    (∃ ms, collectRules reg path method roles [] = Except.ok ms ∧
      (∀ rule, rule ∈ ms ↔ ∃ role ∈ roles, ∃ rr, reg role = some rr ∧
        ∃ pr ∈ rr, pathMatch pr.1 path = true ∧
          (pr.2.methods.any fun mm => mm == "*" || mm == method) = true ∧ pr.2 = rule) ∧
      (∀ (p : Proxy) upstream parse marshal (user : String) (key : Key),
        p.roles = reg → p.keyOpener (strBytes user) = some key → key.roles = roles →
        ms = [] →
        p.serveHTTP upstream parse marshal (some user) path method
          = ServeResult.errorResp "unauthorized"
              "You do not have permission to access this resource")) ∧
    pathMatch "/candidates/*" "/candidates/baz/boz" = false ∧
    testProxy.serveHTTP (Except.ok (200, [])) (fun _ => some JSON.null) (fun _ => [])
      (some "u") "/candidates/baz/boz" "GET"
      = ServeResult.errorResp "unauthorized"
          "You do not have permission to access this resource" := by
  obtain ⟨ms, h1, h2⟩ := collectRules_ok reg path method roles [] hall
  refine ⟨⟨ms, h1, fun rule => ?_, ?_⟩, by decide, by decide⟩
  · rw [h2 rule]
    simp [ruleMatches, Bool.and_eq_true, and_assoc]
  · intro p upstream parse marshal user key hpe hopen hkr hms
    subst hms
    simp [Proxy.serveHTTP, hopen, hpe, hkr, h1]

/-- C3 witness: the matching theorem applied to the concrete registry at
the 3-segment path. -/
theorem C3_rule_matching_witness :
    pathMatch "/candidates/*" "/candidates/baz/boz" = false ∧
    testProxy.serveHTTP (Except.ok (200, [])) (fun _ => some JSON.null) (fun _ => [])
      (some "u") "/candidates/baz/boz" "GET"
      = ServeResult.errorResp "unauthorized"
          "You do not have permission to access this resource" := by
  have h := C3_rule_matching testRegistry "/candidates/baz/boz" "GET" ["candidates"]
    (by decide)
  exact ⟨h.2.1, h.2.2⟩

/-! ## C4: filter idempotence -/

theorem filterJSON_arr_cons (rules : List Rule) (v : JSON) (vt : List JSON)
    (keys : List String) :
    filterJSON rules (JSON.arr (v :: vt)) keys
      = (JSON.arr (filterList rules (v :: vt) keys),
         !(filterList rules (v :: vt) keys).isEmpty) := rfl

theorem filterJSON_obj_cons (rules : List Rule) (m : String × JSON)
    (ms : List (String × JSON)) (keys : List String) :
    filterJSON rules (JSON.obj (m :: ms)) keys
      = (JSON.obj (filterMembers rules (m :: ms) keys),
         !(filterMembers rules (m :: ms) keys).isEmpty) := rfl

theorem filterList_cons (rules : List Rule) (v : JSON) (vs : List JSON)
    (keys : List String) :
    filterList rules (v :: vs) keys
      = (if (filterJSON rules v keys).2 then [(filterJSON rules v keys).1] else [])
        ++ filterList rules vs keys := rfl

theorem filterMembers_cons (rules : List Rule) (k : String) (v : JSON)
    (vs : List (String × JSON)) (keys : List String) :
    filterMembers rules ((k, v) :: vs) keys
      = (if (filterJSON rules v (keys ++ [k])).2
          then [(k, (filterJSON rules v (keys ++ [k])).1)] else [])
        ++ filterMembers rules vs keys := rfl

/-- Member-wise induction principle for the nested `JSON` type. -/
def JSON.recMem {P : JSON → Prop} (hnull : P JSON.null) (hbool : ∀ b, P (JSON.bool b))
    (hnum : ∀ n, P (JSON.num n)) (hstr : ∀ s, P (JSON.str s))
    (harr : ∀ l, (∀ v ∈ l, P v) → P (JSON.arr l))
    (hobj : ∀ l, (∀ m ∈ l, P m.2) → P (JSON.obj l)) : ∀ v, P v
  | JSON.null => hnull
  | JSON.bool b => hbool b
  | JSON.num n => hnum n
  | JSON.str s => hstr s
  | JSON.arr l =>
    harr l (fun v _ => JSON.recMem hnull hbool hnum hstr harr hobj v)
  | JSON.obj l =>
    hobj l (fun m _ => JSON.recMem hnull hbool hnum hstr harr hobj m.2)
termination_by v => sizeOf v
decreasing_by
  · rename_i hv
    have := List.sizeOf_lt_of_mem hv
    simp only [JSON.arr.sizeOf_spec]
    omega
  · rename_i hm
    have h1 := List.sizeOf_lt_of_mem hm
    rcases m with ⟨a, b⟩
    simp only [JSON.obj.sizeOf_spec, Prod.mk.sizeOf_spec] at h1 ⊢
    omega

theorem filterList_mem_src (rules : List Rule) (keys : List String) :
    ∀ (l : List JSON) (x : JSON), x ∈ filterList rules l keys →
      ∃ v ∈ l, filterJSON rules v keys = (x, true) := by
  intro l
  induction l with
  | nil => intro x hx; exact absurd hx (List.not_mem_nil x)
  | cons v vs ih =>
    intro x hx
    rw [filterList_cons, List.mem_append] at hx
    rcases hx with hl | hr
    · by_cases hc : (filterJSON rules v keys).2 = true
      · rw [if_pos hc, List.mem_singleton] at hl
        subst hl
        exact ⟨v, List.mem_cons_self v vs, by rw [← hc]⟩
      · rw [if_neg hc] at hl
        exact absurd hl (List.not_mem_nil x)
    · obtain ⟨w, hw, he⟩ := ih x hr
      exact ⟨w, List.mem_cons_of_mem v hw, he⟩

theorem filterList_all_fix (rules : List Rule) (keys : List String) :
    ∀ (l : List JSON), (∀ x ∈ l, filterJSON rules x keys = (x, true)) →
      filterList rules l keys = l := by
  intro l
  induction l with
  | nil => intro _; rfl
  | cons v vs ih =>
    intro h
    rw [filterList_cons, h v (List.mem_cons_self v vs)]
    simp only [if_pos]
    rw [ih (fun x hx => h x (List.mem_cons_of_mem v hx))]
    rfl

theorem filterMembers_mem_src (rules : List Rule) (keys : List String) :
    ∀ (l : List (String × JSON)) (kx : String × JSON), kx ∈ filterMembers rules l keys →
      ∃ v, (kx.1, v) ∈ l ∧ filterJSON rules v (keys ++ [kx.1]) = (kx.2, true) := by
  intro l
  induction l with
  | nil => intro kx hx; exact absurd hx (List.not_mem_nil kx)
  | cons m ms ih =>
    intro kx hx
    rcases m with ⟨k, v⟩
    rw [filterMembers_cons, List.mem_append] at hx
    rcases hx with hl | hr
    · by_cases hc : (filterJSON rules v (keys ++ [k])).2 = true
      · rw [if_pos hc, List.mem_singleton] at hl
        subst hl
        exact ⟨v, List.mem_cons_self (k, v) ms, by rw [← hc]⟩
      · rw [if_neg hc] at hl
        exact absurd hl (List.not_mem_nil kx)
    · obtain ⟨w, hw, he⟩ := ih kx hr
      exact ⟨w, List.mem_cons_of_mem (k, v) hw, he⟩

theorem filterMembers_all_fix (rules : List Rule) (keys : List String) :
    ∀ (l : List (String × JSON)),
      (∀ kx ∈ l, filterJSON rules kx.2 (keys ++ [kx.1]) = (kx.2, true)) →
      filterMembers rules l keys = l := by
  intro l
  induction l with
  | nil => intro _; rfl
  | cons m ms ih =>
    intro h
    rcases m with ⟨k, v⟩
    rw [filterMembers_cons, h (k, v) (List.mem_cons_self (k, v) ms)]
    simp only [if_pos]
    rw [ih (fun x hx => h x (List.mem_cons_of_mem (k, v) hx))]
    rfl

theorem filterJSON_fixpoint (rules : List Rule) (v : JSON) :
    ∀ keys, (filterJSON rules v keys).2 = true →
      filterJSON rules (filterJSON rules v keys).1 keys
        = ((filterJSON rules v keys).1, true) := by
  induction v using JSON.recMem with
  | hnull => intro keys h; exact Prod.ext rfl h
  | hbool b => intro keys h; exact Prod.ext rfl h
  | hnum n => intro keys h; exact Prod.ext rfl h
  | hstr s => intro keys h; exact Prod.ext rfl h
  | harr l ih =>
    intro keys h
    cases l with
    | nil => exact Prod.ext rfl h
    | cons w wt =>
      rw [filterJSON_arr_cons] at h ⊢
      simp only []
      cases hvf : filterList rules (w :: wt) keys with
      | nil => rw [hvf] at h; exact absurd h (by decide)
      | cons x xs =>
        have hfix : ∀ y ∈ filterList rules (w :: wt) keys,
            filterJSON rules y keys = (y, true) := by
          intro y hy
          obtain ⟨v', hv', he⟩ := filterList_mem_src rules keys (w :: wt) y hy
          have := ih v' hv' keys (by rw [he])
          rw [he] at this
          exact this
        rw [hvf] at hfix
        rw [filterJSON_arr_cons, filterList_all_fix rules keys (x :: xs) hfix]
        rfl
  | hobj l ih =>
    intro keys h
    cases l with
    | nil => exact Prod.ext rfl h
    | cons m mt =>
      rw [filterJSON_obj_cons] at h ⊢
      simp only []
      cases hvf : filterMembers rules (m :: mt) keys with
      | nil => rw [hvf] at h; exact absurd h (by decide)
      | cons x xs =>
        have hfix : ∀ kx ∈ filterMembers rules (m :: mt) keys,
            filterJSON rules kx.2 (keys ++ [kx.1]) = (kx.2, true) := by
          intro kx hkx
          obtain ⟨v', hv', he⟩ := filterMembers_mem_src rules keys (m :: mt) kx hkx
          have := ih (kx.1, v') hv' (keys ++ [kx.1]) (by rw [he])
          rw [he] at this
          exact this
        rw [hvf] at hfix
        rw [filterJSON_obj_cons, filterMembers_all_fix rules keys (x :: xs) hfix]
        rfl

theorem filterJSON_fst_idem (rules : List Rule) (v : JSON) (keys : List String) :
    (filterJSON rules (filterJSON rules v keys).1 keys).1
      = (filterJSON rules v keys).1 := by
  by_cases h : (filterJSON rules v keys).2 = true
  · rw [filterJSON_fixpoint rules v keys h]
  · cases v with
    | null => rfl
    | bool b => rfl
    | num n => rfl
    | str s => rfl
    | arr l =>
      cases l with
      | nil => rfl
      | cons w wt =>
        cases hvf : filterList rules (w :: wt) keys with
        | nil =>
          rw [filterJSON_arr_cons]
          simp only [hvf]
          rfl
        | cons x xs =>
          exact absurd (by rw [filterJSON_arr_cons, hvf]; rfl) h
    | obj l =>
      cases l with
      | nil => rfl
      | cons m mt =>
        cases hvf : filterMembers rules (m :: mt) keys with
        | nil =>
          rw [filterJSON_obj_cons]
          simp only [hvf]
          rfl
        | cons x xs =>
          exact absurd (by rw [filterJSON_obj_cons, hvf]; rfl) h

/-- C4: the response filter is idempotent — re-filtering an already
filtered value with the same rule set (from the top-level empty key path,
as `filterBytes` does) returns the same value. -/
theorem C4_filter_idempotent (rules : List Rule) (v : JSON) :
    (filterJSON rules (filterJSON rules v []).1 []).1 = (filterJSON rules v []).1 :=
  filterJSON_fst_idem rules v []

/-! ## C5: array elements inherit the parent key path -/

/-- Test input of the path-flattening scenario. -/
def jobsInput : JSON :=
  JSON.obj [("jobs", JSON.arr
    [JSON.obj [("name", JSON.str "me"), ("day", JSON.str "night")],
     JSON.obj [("other", JSON.str "stuff")]])]

/-- Rule set whitelisting the key-path pattern jobs/*. -/
def jobsRules : List Rule := [⟨["GET"], ["jobs/*"]⟩]

/-- C5: descending into an array element never appends a key-path segment —
the array case filters every element under the parent's unchanged key list
(the first two conjuncts are the defining equations showing `keys` is
passed through) — so with whitelist pattern jobs/* the jobs example keeps
name, day and other inside the objects of the array, array structure
preserved. -/
theorem C5_array_keypath :
    (∀ (rules : List Rule) (keys : List String) (v : JSON) (vt : List JSON),
      filterJSON rules (JSON.arr (v :: vt)) keys
        = (JSON.arr (filterList rules (v :: vt) keys),
           !(filterList rules (v :: vt) keys).isEmpty)) ∧
    (∀ (rules : List Rule) (keys : List String) (v : JSON) (vs : List JSON),
      filterList rules (v :: vs) keys
        = (if (filterJSON rules v keys).2 then [(filterJSON rules v keys).1] else [])
          ++ filterList rules vs keys) ∧
    filterJSON jobsRules jobsInput [] = (jobsInput, true) :=
  ⟨fun _ _ _ _ => rfl, fun _ _ _ _ => rfl, rfl⟩

/-! ## C6: leaves against the whitelist, containers by child survival -/

/-- C6: scalars, null, the empty array and the empty object are leaves
evaluated with `checkFilter` — kept iff some responseKeys pattern of some
matched rule matches the joined key path — while a non-empty array or
object reports survival iff at least one child survived, children being
collected by the filterList / filterMembers equations (a child whose
filtered flag is false contributes nothing, so a childless container is
dropped by its parent, never emitted as an empty container). -/
theorem C6_leaf_and_container (rules : List Rule) (keys : List String) :
    filterJSON rules JSON.null keys = (JSON.null, checkFilter rules keys) ∧
    (∀ b, filterJSON rules (JSON.bool b) keys = (JSON.bool b, checkFilter rules keys)) ∧
    (∀ n, filterJSON rules (JSON.num n) keys = (JSON.num n, checkFilter rules keys)) ∧
    (∀ s, filterJSON rules (JSON.str s) keys = (JSON.str s, checkFilter rules keys)) ∧
    filterJSON rules (JSON.arr []) keys = (JSON.arr [], checkFilter rules keys) ∧
    filterJSON rules (JSON.obj []) keys = (JSON.obj [], checkFilter rules keys) ∧
    (checkFilter rules keys = true ↔
      ∃ rule ∈ rules, ∃ pat ∈ rule.responseKeys, pathMatch pat (pathJoin keys) = true) ∧
    (∀ v vt, (filterJSON rules (JSON.arr (v :: vt)) keys).2
      = !(filterList rules (v :: vt) keys).isEmpty) ∧
    (∀ m ms, (filterJSON rules (JSON.obj (m :: ms)) keys).2
      = !(filterMembers rules (m :: ms) keys).isEmpty) ∧
    (∀ v vs, filterList rules (v :: vs) keys
      = (if (filterJSON rules v keys).2 then [(filterJSON rules v keys).1] else [])
        ++ filterList rules vs keys) ∧
    (∀ k v ms, filterMembers rules ((k, v) :: ms) keys
      = (if (filterJSON rules v (keys ++ [k])).2
          then [(k, (filterJSON rules v (keys ++ [k])).1)] else [])
        ++ filterMembers rules ms keys) := by
  refine ⟨rfl, fun b => rfl, fun n => rfl, fun s => rfl, rfl, rfl, ?_,
    fun v vt => rfl, fun m ms => rfl, fun v vs => rfl, fun k v ms => rfl⟩
  simp [checkFilter, List.any_eq_true]

/-! ## C7: filtering only below status 300 -/

/-- C7: once authentication and authorization pass, an upstream status of
300 or more is written back with the body unfiltered, while a status below
300 has its body parsed, filtered with the matched rules from the empty key
path, and re-serialized with the marshaller. -/
theorem C7_response_shaping (p : Proxy) (parse : List Nat → Option JSON)
    (marshal : JSON → List Nat) (user path method : String) (key : Key)
    (ms : List Rule) (status : Nat) (body : List Nat)
    (hopen : p.keyOpener (strBytes user) = some key)
    (hcollect : collectRules p.roles path method key.roles [] = Except.ok ms)
    (hne : ms ≠ []) :
    (300 ≤ status →
      p.serveHTTP (Except.ok (status, body)) parse marshal (some user) path method
        = ServeResult.proxied status body) ∧
    (∀ v, status < 300 → parse body = some v →
      p.serveHTTP (Except.ok (status, body)) parse marshal (some user) path method
        = ServeResult.proxied status (marshal (filterJSON ms v []).1)) := by
  have hne' : ms.isEmpty = false := by
    cases ms with
    | nil => exact absurd rfl hne
    | cons a l => rfl
  constructor
  · intro hst
    have hlt : ¬status < 300 := by omega
    simp [Proxy.serveHTTP, hopen, hcollect, hne', hlt]
  · intro v hst hp
    simp [Proxy.serveHTTP, hopen, hcollect, hne', hst, filterBytes, hp]

/-- C7 witness: the shaping theorem applied over the concrete registry to a
404 (body passed through) and a 200 (body parsed, filtered, re-marshalled
by a constant marshaller). -/
theorem C7_response_shaping_witness :
    testProxy.serveHTTP (Except.ok (404, [7])) (fun _ => some jobsInput) (fun _ => [1])
      (some "u") "/candidates/baz" "GET" = ServeResult.proxied 404 [7] ∧
    testProxy.serveHTTP (Except.ok (200, [7])) (fun _ => some jobsInput) (fun _ => [1])
      (some "u") "/candidates/baz" "GET" = ServeResult.proxied 200 [1] := by
  constructor
  · exact (C7_response_shaping testProxy (fun _ => some jobsInput) (fun _ => [1])
      "u" "/candidates/baz" "GET" ⟨⟨0, 0⟩, ["candidates"], "k"⟩
      [⟨["GET"], ["id", "jobs", "jobs/*"]⟩] 404 [7] rfl rfl (by decide)).1
      (by omega)
  · exact (C7_response_shaping testProxy (fun _ => some jobsInput) (fun _ => [1])
      "u" "/candidates/baz" "GET" ⟨⟨0, 0⟩, ["candidates"], "k"⟩
      [⟨["GET"], ["id", "jobs", "jobs/*"]⟩] 200 [7] rfl rfl (by decide)).2
      jobsInput (by omega) rfl

/-! ## C9: per-request failure isolation -/

/-- C9: the two in-request failure modes — upstream transport error, and a
success-status body that fails to parse — make the handler panic, and the
recovery boundary converts exactly that panic into a 500 server-side error
response for that single request; `recoverWrap` is total on handler
outcomes, so no outcome escapes as a process crash. -/
theorem C9_panic_isolated (p : Proxy) (parse : List Nat → Option JSON)
    (marshal : JSON → List Nat) (user path method : String) (key : Key)
    (ms : List Rule)
    (hopen : p.keyOpener (strBytes user) = some key)
    (hcollect : collectRules p.roles path method key.roles [] = Except.ok ms)
    (hne : ms ≠ []) :
    (∀ e, p.serveHTTP (Except.error e) parse marshal (some user) path method
        = ServeResult.panicked ∧
      recoverWrap (p.serveHTTP (Except.error e) parse marshal (some user) path method)
        = 500) ∧
    (∀ status body, status < 300 → parse body = none →
      p.serveHTTP (Except.ok (status, body)) parse marshal (some user) path method
        = ServeResult.panicked ∧
      recoverWrap (p.serveHTTP (Except.ok (status, body)) parse marshal (some user)
        path method) = 500) := by
  have hne' : ms.isEmpty = false := by
    cases ms with
    | nil => exact absurd rfl hne
    | cons a l => rfl
  constructor
  · intro e
    constructor <;> simp [Proxy.serveHTTP, hopen, hcollect, hne', recoverWrap]
  · intro status body hst hp
    constructor <;>
      simp [Proxy.serveHTTP, hopen, hcollect, hne', hst, filterBytes, hp, recoverWrap]

/-- C9 witness: the isolation theorem applied over the concrete registry to
a transport error and to an unparseable 200 body. -/
theorem C9_panic_isolated_witness :
    recoverWrap (testProxy.serveHTTP (Except.error ()) (fun _ => none) (fun _ => [])
      (some "u") "/candidates/baz" "GET") = 500 ∧
    recoverWrap (testProxy.serveHTTP (Except.ok (200, [7])) (fun _ => none) (fun _ => [])
      (some "u") "/candidates/baz" "GET") = 500 := by
  have h := C9_panic_isolated testProxy (fun _ => none) (fun _ => [])
    "u" "/candidates/baz" "GET" ⟨⟨0, 0⟩, ["candidates"], "k"⟩
    [⟨["GET"], ["id", "jobs", "jobs/*"]⟩] rfl rfl (by decide)
  exact ⟨(h.1 ()).2, (h.2 200 [7] (by omega) rfl).2⟩

/-! ## C10: key paths are joined and cleaned, not concatenated -/

/-- C10: the key path tested by `checkFilter` is path.Join of the member
names — joined with slashes and cleaned — so a member literally named a/b
is tested as key-path a/b and retained by pattern a/*, while an
empty-string member name contributes no segment at all (["a", ""] joins to
"a" exactly like ["a"]), making the key-path map non-injective on
member-name sequences. -/
theorem C10_keypath_join :
    filterJSON [⟨["GET"], ["a/*"]⟩] (JSON.obj [("a/b", JSON.num 1)]) []
      = (JSON.obj [("a/b", JSON.num 1)], true) ∧
    pathJoin ["a/b"] = "a/b" ∧
    pathJoin ["a", ""] = "a" ∧
    pathJoin ["a"] = "a" ∧
    (["a", ""] ≠ ["a"]) ∧
    checkFilter [⟨["GET"], ["a"]⟩] ["a", ""] = true ∧
    filterJSON [⟨["GET"], ["a"]⟩] (JSON.obj [("a", JSON.obj [("", JSON.num 1)])]) []
      = (JSON.obj [("a", JSON.obj [("", JSON.num 1)])], true) :=
  ⟨rfl, by decide, by decide, by decide, by decide, by decide, rfl⟩
